import Mathlib

/-!
# Verification of the file-automation tool

A shallow embedding of `file_automation.py`, which organizes the files of a
single directory into category subfolders by extension.

Modelling conventions:

* A file name is a `String`.  The file system relevant to one run is the
  target directory: its top-level files and one level of subdirectories,
  each subdirectory holding a list of entry names (`FS` below).  The
  organizer never creates nested directories, and names of files and
  directories are kept in separate fields (in a real file system a file and
  a directory cannot share a name at the same level; states where a
  top-level file shadows a category name, on which the Python code would
  raise `FileExistsError` from `mkdir`, are outside the scope of the claims).
* `Path.suffix` / `Path.stem` are embedded faithfully from CPython's
  `pathlib`: the last `.` of the final component counts only when it is
  neither the first nor the last character of the name.
* Python's unbounded `while True` collision loop is embedded as a
  fuel-based search; the fuel `|existing| + 1` is proven sufficient to
  reach the first free counter, so the embedding computes exactly the
  value the loop returns.
* `str.lower()` is embedded as a character-wise `Char.toLower` map; the
  extensions involved are ASCII, where the two coincide.
* Timestamps are opaque strings supplied per invocation; each invocation
  of the organizer is a fresh process (the logging configuration is
  per-process).
-/

/-- `FILE_TYPES`: the static category table of the source, in its
insertion (iteration) order.  The fallback category `Others` has an empty
extension list. -/
def FILE_TYPES : List (String × List String) :=
  [ ("Images", [".jpg", ".jpeg", ".png", ".gif", ".bmp", ".tiff", ".webp"]),
    ("Documents", [".pdf", ".doc", ".docx", ".txt", ".rtf", ".odt"]),
    ("Spreadsheets", [".xls", ".xlsx", ".csv", ".ods"]),
    ("Presentations", [".ppt", ".pptx", ".odp"]),
    ("Videos", [".mp4", ".mkv", ".mov", ".avi", ".flv", ".wmv"]),
    ("Audio", [".mp3", ".wav", ".aac", ".flac", ".ogg", ".m4a"]),
    ("Archives", [".zip", ".rar", ".7z", ".tar", ".gz"]),
    ("Code", [".py", ".js", ".ts", ".html", ".css", ".java", ".c", ".cpp"]),
    ("Others", []) ]

/-- The loop body of `get_category`: scan the table in order, returning the
first category whose (nonempty) extension list contains `ext`; fall back to
`"Others"`.  Mirrors `for category, exts in FILE_TYPES.items(): if exts and
ext in exts: return category` followed by `return "Others"`. -/
def lookupCategory (ext : String) : List (String × List String) → String
  | [] => "Others"
  | (category, exts) :: rest =>
    if exts ≠ [] ∧ ext ∈ exts then category else lookupCategory ext rest

/-- `str.lower()` embedded character-wise (`Char.toLower` lowers exactly the
ASCII range, which is all the table contains). -/
def strLower (s : String) : String :=
  ⟨s.data.map Char.toLower⟩

/-- `get_category(extension)`: lowercase the extension and scan `FILE_TYPES`. -/
def get_category (extension : String) : String :=
  lookupCategory (strLower extension) FILE_TYPES

/-- Index of the last `'.'` in a character list (CPython `str.rfind('.')`),
or `none` when there is no dot. -/
def rfindDot : List Char → Option Nat
  | [] => none
  | c :: cs =>
    match rfindDot cs with
    | some i => some (i + 1)
    | none => if c = '.' then some 0 else none

/-- `PurePath.suffix` of a file name: `name[i:]` where `i = name.rfind('.')`,
provided `0 < i < len(name) - 1`; otherwise the empty string. -/
def pySuffix (name : String) : String :=
  let cs := name.data
  match rfindDot cs with
  | some i => if 0 < i ∧ i < cs.length - 1 then ⟨cs.drop i⟩ else ""
  | none => ""

/-- `PurePath.stem` of a file name: `name[:i]` under the same condition as
`pySuffix`, otherwise the whole name. -/
def pyStem (name : String) : String :=
  let cs := name.data
  match rfindDot cs with
  | some i => if 0 < i ∧ i < cs.length - 1 then ⟨cs.take i⟩ else name
  | none => name

/-! ## The file-system model -/

/-- The observable state of the target directory: the names of its
top-level files (`files`) and its immediate subdirectories with their
entry names (`sub`, an association list keyed by directory name).  Only
one level of nesting is ever created or inspected by the program. -/
structure FS where
  sub : List (String × List String)
  files : List String
deriving DecidableEq, Repr

/-- First-occurrence association-list lookup. -/
def lookupDir : List (String × List String) → String → Option (List String)
  | [], _ => none
  | (d, c) :: rest, x => if d = x then some c else lookupDir rest x

/-- Replace the contents of the first entry keyed `x` (append a new entry
if absent). -/
def setDir : List (String × List String) → String → List String → List (String × List String)
  | [], x, l => [(x, l)]
  | (d, c) :: rest, x, l => if d = x then (x, l) :: rest else (d, c) :: setDir rest x l

/-- The entry names currently present in subdirectory `d` (empty when the
subdirectory does not exist). -/
def FS.dirFiles (fs : FS) (d : String) : List String :=
  (lookupDir fs.sub d).getD []

/-- Whether subdirectory `d` exists. -/
def FS.hasDir (fs : FS) (d : String) : Bool :=
  (lookupDir fs.sub d).isSome

/-- `Path.mkdir(exist_ok=True)`: create `d` empty if absent, no-op if
present. -/
def FS.mkdir (fs : FS) (d : String) : FS :=
  if fs.hasDir d then fs else ⟨(d, []) :: fs.sub, fs.files⟩

/-- Place a file named `name` inside subdirectory `d`.  The program only
ever adds a name that is not already present there: the mover picks a free
name and the log file of a run is new. -/
def FS.addFileToDir (fs : FS) (d name : String) : FS :=
  ⟨setDir fs.sub d (name :: fs.dirFiles d), fs.files⟩

/-- Remove source entry `name` from its location: `none` is the top level
of the target, `some d` is inside subdirectory `d`. -/
def FS.removeFile (fs : FS) (srcDir : Option String) (name : String) : FS :=
  match srcDir with
  | none => ⟨fs.sub, fs.files.erase name⟩
  | some d => ⟨setDir fs.sub d ((fs.dirFiles d).erase name), fs.files⟩

/-! ## `move_file` -/

/-- The candidate name `f"{stem}_{counter}{suffix}"` of the collision
loop. -/
def candidateName (stem suffix : String) (counter : Nat) : String :=
  stem ++ "_" ++ Nat.repr counter ++ suffix

/-- The `while True` collision loop: starting at counter `k`, return the
first counter whose candidate name is not among `existing`.  The loop of
the source is unbounded; here it carries fuel, and `|existing| + 1`
iterations are proven sufficient below (`firstFreeSlot_spec`), so with
that fuel this computes exactly the counter the source loop returns. -/
def searchFrom (existing : List String) (stem suffix : String) : Nat → Nat → Nat
  | 0, k => k
  | fuel + 1, k =>
    if candidateName stem suffix k ∈ existing then
      searchFrom existing stem suffix fuel (k + 1)
    else k

/-- The counter finally used by the collision loop, starting from 1. -/
def firstFreeSlot (existing : List String) (stem suffix : String) : Nat :=
  searchFrom existing stem suffix (existing.length + 1) 1

/-- `move_file(src, dest_dir)`: ensure `dest_dir` exists, then move the
source file into it under its own name, or — when that name is already
present in `dest_dir` — under `f"{stem}_{counter}{suffix}"` for the first
free counter.  The source file is identified by its name and its current
location (`srcDir`); the source performs no check that the source and the
destination are the same path, and neither does this embedding: the
decision depends only on membership of the name in `dest_dir`.  Returns
the updated file system and the final name used inside `destDir`. -/
def move_file (fs : FS) (srcDir : Option String) (srcName : String) (destDir : String) :
    FS × String :=
  let fs1 := fs.mkdir destDir
  let existing := fs1.dirFiles destDir
  if srcName ∈ existing then
    let stem := pyStem srcName
    let suffix := pySuffix srcName
    let finalName := candidateName stem suffix (firstFreeSlot existing stem suffix)
    (((fs1.removeFile srcDir srcName).addFileToDir destDir finalName), finalName)
  else
    (((fs1.removeFile srcDir srcName).addFileToDir destDir srcName), srcName)

/-! ## Logging and `organize_directory` -/

/-- The per-run log file name `f"file_organizer_{timestamp}.log"`. -/
def logFileName (ts : String) : String :=
  "file_organizer_" ++ ts ++ ".log"

/-- `setup_logging(base_dir)`: create the `logs` subdirectory (idempotent)
and the timestamped log file inside it. -/
def setup_logging (fs : FS) (ts : String) : FS :=
  (fs.mkdir "logs").addFileToDir "logs" (logFileName ts)

/-- The line format configured by `logging.basicConfig`:
`"%(asctime)s - %(levelname)s - %(message)s"`. -/
def formatLogLine (asctime levelname message : String) : String :=
  asctime ++ " - " ++ levelname ++ " - " ++ message

/-- The per-file loop body of `organize_directory`: extract the entry's
extension, resolve its category, and (outside dry-run mode) move the file
into `<target>/<category>` via `move_file`.  In dry-run mode only a notice
is logged and nothing changes. -/
def processEntry (fs : FS) (name : String) (dryRun : Bool) : FS :=
  if dryRun then fs
  else
    let ext := pySuffix name
    let category := get_category ext
    (move_file fs none name category).1

/-- Process the scanned top-level entries in order.  Directories are
skipped by the loop (`if entry.is_dir(): continue`), so only the top-level
file names are processed; `iterdir` reads the listing once up front, hence
the snapshot list. -/
def processList (dryRun : Bool) : List String → FS → FS
  | [], fs => fs
  | e :: es, fs => processList dryRun es (processEntry fs e dryRun)

/-- `organize_directory` on a valid target: set up logging, then process
the snapshot of top-level files. -/
def organizeRun (fs : FS) (ts : String) (dryRun : Bool) : FS :=
  let fs1 := setup_logging fs ts
  processList dryRun fs1.files fs1

/-- `organize_directory(target_dir, dry_run)`: the resolved target is
either a directory (`some fs`) or not (`none`); in the latter case a
`NotADirectoryError` with message `f"{base_path} is not a valid
directory"` is raised before any side effect. -/
def organize_directory (targetPath : String) (target : Option FS) (ts : String)
    (dryRun : Bool) : Except String FS :=
  match target with
  | none => Except.error (targetPath ++ " is not a valid directory")
  | some fs => Except.ok (organizeRun fs ts dryRun)

/-! ## Decimal rendering is injective

`f"...{counter}..."` renders the counter in decimal (`Nat.repr`); distinct
counters give distinct candidate names, which is what makes the collision
loop terminate on a finite directory. -/

/-- Value of a decimal digit character (10 for non-digits). -/
def digitVal (c : Char) : Nat :=
  if c = '0' then 0 else if c = '1' then 1 else if c = '2' then 2 else
  if c = '3' then 3 else if c = '4' then 4 else if c = '5' then 5 else
  if c = '6' then 6 else if c = '7' then 7 else if c = '8' then 8 else
  if c = '9' then 9 else 10

/-- Decode a decimal digit string back to the number it denotes. -/
def decodeDec (cs : List Char) : Nat :=
  cs.foldl (fun a c => a * 10 + digitVal c) 0

theorem digitVal_digitChar : ∀ d : Nat, d < 10 → digitVal (Nat.digitChar d) = d := by
  decide

theorem toDigitsCore_eq_append (b : Nat) :
    ∀ (fuel n : Nat) (ds : List Char),
      Nat.toDigitsCore b fuel n ds = Nat.toDigitsCore b fuel n [] ++ ds := by
  intro fuel
  induction fuel with
  | zero => intro n ds; simp [Nat.toDigitsCore]
  | succ fuel ih =>
    intro n ds
    simp only [Nat.toDigitsCore]
    by_cases h : n / b = 0
    · simp [h]
    · simp only [h, if_false]
      rw [ih (n / b) [Nat.digitChar (n % b)], ih (n / b) (Nat.digitChar (n % b) :: ds),
        List.append_assoc]
      rfl

theorem decodeDec_toDigitsCore :
    ∀ fuel n : Nat, n < fuel → decodeDec (Nat.toDigitsCore 10 fuel n []) = n := by
  intro fuel
  induction fuel with
  | zero => intro n h; omega
  | succ fuel ih =>
    intro n h
    simp only [Nat.toDigitsCore]
    by_cases h10 : n / 10 = 0
    · have hn : n < 10 := by omega
      simp only [h10, if_true]
      show decodeDec [Nat.digitChar (n % 10)] = n
      have : n % 10 = n := Nat.mod_eq_of_lt hn
      simp [decodeDec, this, digitVal_digitChar n hn]
    · simp only [h10, if_false]
      rw [toDigitsCore_eq_append]
      have hdiv : n / 10 < fuel := by
        have h1 : n / 10 < n := Nat.div_lt_self (by omega) (by omega)
        omega
      have hrec := ih (n / 10) hdiv
      simp only [decodeDec] at hrec ⊢
      rw [List.foldl_append, hrec]
      simp only [List.foldl_cons, List.foldl_nil,
        digitVal_digitChar (n % 10) (Nat.mod_lt n (by omega))]
      omega

theorem natRepr_injective : Function.Injective Nat.repr := by
  intro a b h
  have hdata : Nat.toDigits 10 a = Nat.toDigits 10 b := congrArg String.data h
  have ha := decodeDec_toDigitsCore (a + 1) a (Nat.lt_succ_self a)
  have hb := decodeDec_toDigitsCore (b + 1) b (Nat.lt_succ_self b)
  rw [show Nat.toDigitsCore 10 (a + 1) a [] = Nat.toDigits 10 a from rfl, hdata] at ha
  rw [show Nat.toDigitsCore 10 (b + 1) b [] = Nat.toDigits 10 b from rfl] at hb
  omega

theorem candidateName_injective (stem suffix : String) :
    Function.Injective (candidateName stem suffix) := by
  intro k j h
  have hd : ((stem.data ++ ['_']) ++ (Nat.repr k).data) ++ suffix.data
      = ((stem.data ++ ['_']) ++ (Nat.repr j).data) ++ suffix.data := by
    simpa [candidateName, List.append_assoc] using congrArg String.data h
  have h1 := List.append_cancel_right hd
  have h2 := List.append_cancel_left h1
  exact natRepr_injective (String.ext h2)

/-! ## The collision loop finds the first free counter -/

theorem exists_free_slot (existing : List String) (stem suffix : String) :
    ∃ j, 1 ≤ j ∧ j ≤ existing.length + 1 ∧ candidateName stem suffix j ∉ existing := by
  by_contra hcon
  push_neg at hcon
  have hsub : Finset.image (fun i => candidateName stem suffix (i + 1))
      (Finset.range (existing.length + 1)) ⊆ existing.toFinset := by
    intro x hx
    simp only [Finset.mem_image, Finset.mem_range] at hx
    obtain ⟨i, hi, rfl⟩ := hx
    exact List.mem_toFinset.2 (hcon (i + 1) (by omega) (by omega))
  have hcard := Finset.card_le_card hsub
  rw [Finset.card_image_of_injective _
    (fun a b hab => by have := candidateName_injective stem suffix hab; omega),
    Finset.card_range] at hcard
  have := existing.toFinset_card_le
  omega

theorem searchFrom_spec (existing : List String) (stem suffix : String) :
    ∀ fuel start : Nat,
      (∃ j, start ≤ j ∧ j < start + fuel ∧ candidateName stem suffix j ∉ existing) →
      start ≤ searchFrom existing stem suffix fuel start ∧
      candidateName stem suffix (searchFrom existing stem suffix fuel start) ∉ existing ∧
      ∀ j, start ≤ j → j < searchFrom existing stem suffix fuel start →
        candidateName stem suffix j ∈ existing := by
  intro fuel
  induction fuel with
  | zero => intro start ⟨j, h1, h2, _⟩; omega
  | succ fuel ih =>
    intro start hex
    simp only [searchFrom]
    by_cases hmem : candidateName stem suffix start ∈ existing
    · simp only [hmem, if_true]
      obtain ⟨j, hj1, hj2, hj3⟩ := hex
      have hjne : j ≠ start := fun he => hj3 (he ▸ hmem)
      obtain ⟨hr1, hr2, hr3⟩ := ih (start + 1) ⟨j, by omega, by omega, hj3⟩
      refine ⟨by omega, hr2, fun j hj hjr => ?_⟩
      rcases Nat.eq_or_lt_of_le hj with he | hlt
      · exact he ▸ hmem
      · exact hr3 j hlt hjr
    · rw [if_neg hmem]
      exact ⟨Nat.le_refl _, hmem, fun j h1 h2 => by omega⟩

/-- The counter actually used by `move_file`'s loop is at least 1, its
candidate name is free, and every smaller counter from 1 up is occupied:
the first available integer wins. -/
theorem firstFreeSlot_spec (existing : List String) (stem suffix : String) :
    1 ≤ firstFreeSlot existing stem suffix ∧
    candidateName stem suffix (firstFreeSlot existing stem suffix) ∉ existing ∧
    ∀ j, 1 ≤ j → j < firstFreeSlot existing stem suffix →
      candidateName stem suffix j ∈ existing := by
  obtain ⟨j, h1, h2, h3⟩ := exists_free_slot existing stem suffix
  exact searchFrom_spec existing stem suffix (existing.length + 1) 1 ⟨j, h1, by omega, h3⟩

/-! ## Basic file-system lemmas -/

theorem lookupDir_setDir (sub : List (String × List String)) (x : String) (l : List String)
    (y : String) :
    lookupDir (setDir sub x l) y = if x = y then some l else lookupDir sub y := by
  induction sub with
  | nil => by_cases h : x = y <;> simp [setDir, lookupDir, h]
  | cons p rest ih =>
    obtain ⟨d, c⟩ := p
    by_cases hdx : d = x
    · subst hdx
      by_cases hxy : d = y <;> simp [setDir, lookupDir, hxy]
    · by_cases hdy : d = y
      · subst hdy
        have hxy : ¬(x = d) := fun h => hdx h.symm
        simp [setDir, lookupDir, hdx, hxy]
      · simp [setDir, lookupDir, hdx, hdy, ih]

theorem FS.mkdir_files (fs : FS) (x : String) : (fs.mkdir x).files = fs.files := by
  unfold FS.mkdir; split <;> rfl

theorem FS.dirFiles_mkdir (fs : FS) (x d : String) :
    (fs.mkdir x).dirFiles d = fs.dirFiles d := by
  unfold FS.mkdir
  split
  · rfl
  · next h =>
    show (lookupDir ((x, []) :: fs.sub) d).getD [] = (lookupDir fs.sub d).getD []
    by_cases hxd : x = d
    · subst hxd
      have hnone : lookupDir fs.sub x = none := by
        cases hl : lookupDir fs.sub x with
        | none => rfl
        | some c => exact absurd (by simp [FS.hasDir, hl]) h
      simp [lookupDir, hnone]
    · simp [lookupDir, hxd]

theorem FS.hasDir_mkdir_self (fs : FS) (d : String) : (fs.mkdir d).hasDir d = true := by
  unfold FS.mkdir
  split
  · assumption
  · simp [FS.hasDir, lookupDir]

theorem FS.hasDir_mkdir_of (fs : FS) (x d : String) (h : fs.hasDir d = true) :
    (fs.mkdir x).hasDir d = true := by
  unfold FS.mkdir
  split
  · exact h
  · by_cases hdx : x = d
    · subst hdx; simp [FS.hasDir, lookupDir]
    · simpa [FS.hasDir, lookupDir, hdx] using h

theorem FS.mkdir_of_hasDir (fs : FS) (d : String) (h : fs.hasDir d = true) :
    fs.mkdir d = fs := by
  unfold FS.mkdir
  simp [h]

theorem FS.addFileToDir_files (fs : FS) (d n : String) :
    (fs.addFileToDir d n).files = fs.files := rfl

theorem FS.dirFiles_addFileToDir_self (fs : FS) (d n : String) :
    (fs.addFileToDir d n).dirFiles d = n :: fs.dirFiles d := by
  unfold FS.addFileToDir FS.dirFiles
  simp [lookupDir_setDir]

theorem FS.dirFiles_addFileToDir_other (fs : FS) (d n y : String) (h : y ≠ d) :
    (fs.addFileToDir d n).dirFiles y = fs.dirFiles y := by
  have hdy : d ≠ y := Ne.symm h
  unfold FS.addFileToDir FS.dirFiles
  simp [lookupDir_setDir, hdy]

theorem FS.hasDir_addFileToDir_self (fs : FS) (d n : String) :
    (fs.addFileToDir d n).hasDir d = true := by
  unfold FS.addFileToDir FS.hasDir
  simp [lookupDir_setDir]

theorem FS.hasDir_addFileToDir_of (fs : FS) (d n y : String) (h : fs.hasDir y = true) :
    (fs.addFileToDir d n).hasDir y = true := by
  unfold FS.addFileToDir FS.hasDir
  by_cases hyd : d = y
  · simp [lookupDir_setDir, hyd]
  · simpa [lookupDir_setDir, hyd] using h

theorem FS.removeFile_none_files (fs : FS) (n : String) :
    (fs.removeFile none n).files = fs.files.erase n := rfl

theorem FS.removeFile_none_dirFiles (fs : FS) (n : String) (d : String) :
    (fs.removeFile none n).dirFiles d = fs.dirFiles d := rfl

theorem FS.removeFile_none_hasDir (fs : FS) (n : String) (d : String) :
    (fs.removeFile none n).hasDir d = fs.hasDir d := rfl

/-! ## `move_file` lemmas -/

theorem move_file_final_of_not_mem (fs : FS) (sd : Option String) (src d : String)
    (h : src ∉ fs.dirFiles d) : (move_file fs sd src d).2 = src := by
  have hm : src ∉ (fs.mkdir d).dirFiles d := by rwa [FS.dirFiles_mkdir]
  simp only [move_file]
  rw [if_neg hm]

theorem move_file_final_of_mem (fs : FS) (sd : Option String) (src d : String)
    (h : src ∈ fs.dirFiles d) :
    (move_file fs sd src d).2
      = candidateName (pyStem src) (pySuffix src)
          (firstFreeSlot (fs.dirFiles d) (pyStem src) (pySuffix src)) := by
  have hm : src ∈ (fs.mkdir d).dirFiles d := by rwa [FS.dirFiles_mkdir]
  simp only [move_file]
  rw [if_pos hm, FS.dirFiles_mkdir]

theorem move_file_files_none (fs : FS) (src d : String) :
    (move_file fs none src d).1.files = fs.files.erase src := by
  simp only [move_file]
  split <;> simp [FS.addFileToDir_files, FS.removeFile_none_files, FS.mkdir_files]

theorem move_file_final_not_mem (fs : FS) (sd : Option String) (src d : String) :
    (move_file fs sd src d).2 ∉ fs.dirFiles d := by
  by_cases h : src ∈ fs.dirFiles d
  · rw [move_file_final_of_mem fs sd src d h]
    exact (firstFreeSlot_spec (fs.dirFiles d) (pyStem src) (pySuffix src)).2.1
  · rw [move_file_final_of_not_mem fs sd src d h]
    exact h

theorem move_file_dirFiles_self_none (fs : FS) (src d : String) :
    (move_file fs none src d).1.dirFiles d = (move_file fs none src d).2 :: fs.dirFiles d := by
  simp only [move_file]
  split <;>
    rw [FS.dirFiles_addFileToDir_self, FS.removeFile_none_dirFiles, FS.dirFiles_mkdir]

theorem move_file_dirFiles_other_none (fs : FS) (src d y : String) (h : y ≠ d) :
    (move_file fs none src d).1.dirFiles y = fs.dirFiles y := by
  simp only [move_file]
  split <;>
    rw [FS.dirFiles_addFileToDir_other _ _ _ _ h, FS.removeFile_none_dirFiles,
      FS.dirFiles_mkdir]

theorem move_file_hasDir_self_none (fs : FS) (src d : String) :
    (move_file fs none src d).1.hasDir d = true := by
  simp only [move_file]
  split <;> exact FS.hasDir_addFileToDir_self _ _ _

theorem move_file_hasDir_of_none (fs : FS) (src d y : String) (h : fs.hasDir y = true) :
    (move_file fs none src d).1.hasDir y = true := by
  have h1 : ((fs.mkdir d).removeFile none src).hasDir y = true := by
    rw [FS.removeFile_none_hasDir]
    exact FS.hasDir_mkdir_of _ _ _ h
  simp only [move_file]
  split <;> exact FS.hasDir_addFileToDir_of _ _ _ _ h1

/-! ## Category names never collide with the log folder -/

theorem lookupCategory_mem_keys (x : String) (t : List (String × List String)) :
    lookupCategory x t = "Others" ∨ lookupCategory x t ∈ t.map Prod.fst := by
  induction t with
  | nil => left; rfl
  | cons p rest ih =>
    obtain ⟨c, e⟩ := p
    by_cases h : e ≠ [] ∧ x ∈ e
    · right; simp [lookupCategory, h]
    · rcases ih with h1 | h1 <;> simp only [lookupCategory, if_neg h]
      · left; exact h1
      · right; simp [h1]

theorem get_category_mem_keys (x : String) :
    get_category x ∈ FILE_TYPES.map Prod.fst := by
  rcases lookupCategory_mem_keys (strLower x) FILE_TYPES with h | h
  · rw [get_category, h]; decide
  · exact h

theorem get_category_ne_logs (x : String) : get_category x ≠ "logs" := by
  have h := get_category_mem_keys x
  intro he
  rw [he] at h
  revert h
  decide

/-! ## The organizer loop -/

theorem processEntry_true (fs : FS) (e : String) : processEntry fs e true = fs := rfl

theorem processList_true (es : List String) (fs : FS) : processList true es fs = fs := by
  induction es generalizing fs with
  | nil => rfl
  | cons e es ih => simp [processList, processEntry_true, ih]

theorem processEntry_files (fs : FS) (e : String) :
    (processEntry fs e false).files = fs.files.erase e := by
  unfold processEntry
  simp [move_file_files_none]

theorem processList_files (es : List String) (fs : FS) (h : fs.files = es) :
    (processList false es fs).files = [] := by
  induction es generalizing fs with
  | nil => simpa [processList] using h
  | cons e es ih =>
    simp only [processList]
    exact ih _ (by rw [processEntry_files, h, List.erase_cons_head])

theorem processEntry_dirFiles_logs (fs : FS) (e : String) :
    (processEntry fs e false).dirFiles "logs" = fs.dirFiles "logs" := by
  unfold processEntry
  simp only [if_neg Bool.false_ne_true]
  exact move_file_dirFiles_other_none fs e _ "logs"
    (fun h => get_category_ne_logs (pySuffix e) h.symm)

theorem processList_dirFiles_logs (es : List String) (fs : FS) :
    (processList false es fs).dirFiles "logs" = fs.dirFiles "logs" := by
  induction es generalizing fs with
  | nil => rfl
  | cons e es ih => rw [processList, ih, processEntry_dirFiles_logs]

theorem processEntry_hasDir_of (fs : FS) (e : String) (dry : Bool) (y : String)
    (h : fs.hasDir y = true) : (processEntry fs e dry).hasDir y = true := by
  unfold processEntry
  split
  · exact h
  · exact move_file_hasDir_of_none fs e _ y h

theorem processList_hasDir_of (es : List String) (fs : FS) (dry : Bool) (y : String)
    (h : fs.hasDir y = true) : (processList dry es fs).hasDir y = true := by
  induction es generalizing fs with
  | nil => exact h
  | cons e es ih => exact ih _ (processEntry_hasDir_of fs e dry y h)

theorem processEntry_mem_dirFiles (fs : FS) (e : String) (dry : Bool) (y f : String)
    (h : f ∈ fs.dirFiles y) : f ∈ (processEntry fs e dry).dirFiles y := by
  unfold processEntry
  split
  · exact h
  · by_cases hy : y = get_category (pySuffix e)
    · subst hy
      rw [move_file_dirFiles_self_none]
      exact List.mem_cons_of_mem _ h
    · rwa [move_file_dirFiles_other_none fs e _ y hy]

theorem processList_mem_dirFiles (es : List String) (fs : FS) (dry : Bool) (y f : String)
    (h : f ∈ fs.dirFiles y) : f ∈ (processList dry es fs).dirFiles y := by
  induction es generalizing fs with
  | nil => exact h
  | cons e es ih => exact ih _ (processEntry_mem_dirFiles fs e dry y f h)

/-! ## `setup_logging` and `organizeRun` lemmas -/

theorem setup_logging_files (fs : FS) (ts : String) :
    (setup_logging fs ts).files = fs.files := by
  rw [setup_logging, FS.addFileToDir_files, FS.mkdir_files]

theorem setup_logging_hasDir_logs (fs : FS) (ts : String) :
    (setup_logging fs ts).hasDir "logs" = true :=
  FS.hasDir_addFileToDir_self _ _ _

theorem setup_logging_dirFiles_logs (fs : FS) (ts : String) :
    (setup_logging fs ts).dirFiles "logs" = logFileName ts :: fs.dirFiles "logs" := by
  rw [setup_logging, FS.dirFiles_addFileToDir_self, FS.dirFiles_mkdir]

theorem setup_logging_dirFiles_other (fs : FS) (ts : String) (y : String) (h : y ≠ "logs") :
    (setup_logging fs ts).dirFiles y = fs.dirFiles y := by
  rw [setup_logging, FS.dirFiles_addFileToDir_other _ _ _ _ h, FS.dirFiles_mkdir]

theorem organizeRun_true (fs : FS) (ts : String) :
    organizeRun fs ts true = setup_logging fs ts := by
  rw [organizeRun, processList_true]

theorem organizeRun_files_false (fs : FS) (ts : String) :
    (organizeRun fs ts false).files = [] := by
  rw [organizeRun]
  exact processList_files _ _ rfl

theorem organizeRun_hasDir_logs (fs : FS) (ts : String) (dry : Bool) :
    (organizeRun fs ts dry).hasDir "logs" = true := by
  rw [organizeRun]
  exact processList_hasDir_of _ _ _ _ (setup_logging_hasDir_logs fs ts)

theorem organizeRun_dirFiles_logs (fs : FS) (ts : String) (dry : Bool) :
    (organizeRun fs ts dry).dirFiles "logs" = logFileName ts :: fs.dirFiles "logs" := by
  rw [organizeRun]
  cases dry
  · rw [processList_dirFiles_logs, setup_logging_dirFiles_logs]
  · rw [processList_true, setup_logging_dirFiles_logs]

/-! ## Further helper lemmas -/

theorem FS.hasDir_mkdir_other (fs : FS) (x d : String) (h : d ≠ x) :
    (fs.mkdir x).hasDir d = fs.hasDir d := by
  unfold FS.mkdir
  split
  · rfl
  · have hxd : x ≠ d := Ne.symm h
    simp [FS.hasDir, lookupDir, hxd]

theorem FS.hasDir_addFileToDir_other (fs : FS) (d n y : String) (h : y ≠ d) :
    (fs.addFileToDir d n).hasDir y = fs.hasDir y := by
  have hdy : d ≠ y := Ne.symm h
  unfold FS.addFileToDir FS.hasDir
  simp [lookupDir_setDir, hdy]

theorem FS.removeFile_some_dirFiles (fs : FS) (n d : String) :
    (fs.removeFile (some d) n).dirFiles d = (fs.dirFiles d).erase n := by
  unfold FS.removeFile FS.dirFiles
  simp [lookupDir_setDir]

theorem setup_logging_hasDir_other (fs : FS) (ts y : String) (h : y ≠ "logs") :
    (setup_logging fs ts).hasDir y = fs.hasDir y := by
  rw [setup_logging, FS.hasDir_addFileToDir_other _ _ _ _ h, FS.hasDir_mkdir_other _ _ _ h]

theorem lookupCategory_of_mem (x : String) (t : List (String × List String))
    (cat : String) (exts : List String)
    (hdisj : t.Pairwise (fun p q => ∀ y, y ∈ p.2 → y ∉ q.2))
    (hmem : (cat, exts) ∈ t) (hx : x ∈ exts) :
    lookupCategory x t = cat := by
  induction t with
  | nil => cases hmem
  | cons p rest ih =>
    obtain ⟨hhead, htail⟩ := List.pairwise_cons.1 hdisj
    rcases List.mem_cons.1 hmem with he | hrest
    · obtain ⟨c, e⟩ := p
      cases he
      simp [lookupCategory, hx, List.ne_nil_of_mem hx]
    · have hxe : x ∉ p.2 := fun hxe => hhead (cat, exts) hrest x hxe hx
      obtain ⟨c, e⟩ := p
      rw [lookupCategory, if_neg (fun hc => hxe hc.2)]
      exact ih htail hrest

theorem lookupCategory_fallback (x : String) (t : List (String × List String))
    (h : ∀ p, p ∈ t → x ∉ p.2) :
    lookupCategory x t = "Others" := by
  induction t with
  | nil => rfl
  | cons p rest ih =>
    have hx : x ∉ p.2 := h p (List.mem_cons_self _ _)
    obtain ⟨c, e⟩ := p
    rw [lookupCategory, if_neg (fun hc => hx hc.2)]
    exact ih (fun q hq => h q (List.mem_cons_of_mem _ hq))

theorem rfindDot_eq_none (cs : List Char) (h : '.' ∉ cs) : rfindDot cs = none := by
  induction cs with
  | nil => rfl
  | cons c rest ih =>
    have hc : c ≠ '.' := fun he => h (he ▸ List.mem_cons_self _ _)
    have hr : '.' ∉ rest := fun hm => h (List.mem_cons_of_mem _ hm)
    rw [rfindDot, ih hr]
    simp [hc]

/-! ## The claims -/

/-- C1: for every extension string that lowercases into a concrete
category's extension list, `get_category` returns that category's name
(case-insensitively); for every extension string whose lowercase form is
absent from all concrete categories (the fallback's list being empty, this
includes the empty string), it returns `"Others"`; and the resolver is
total — every input resolves to exactly one category name of the table. -/
theorem get_category_resolves (ext : String) :
    (∀ cat exts, (cat, exts) ∈ FILE_TYPES → exts ≠ [] → strLower ext ∈ exts →
      get_category ext = cat)
    ∧ ((∀ p, p ∈ FILE_TYPES → strLower ext ∉ p.2) → get_category ext = "Others")
    ∧ get_category ext ∈ FILE_TYPES.map Prod.fst := by
  refine ⟨?_, ?_, get_category_mem_keys ext⟩
  · intro cat exts hmem _ hx
    exact lookupCategory_of_mem (strLower ext) FILE_TYPES cat exts (by decide) hmem hx
  · intro h
    exact lookupCategory_fallback (strLower ext) FILE_TYPES h

/-- Witness for C1 at concrete inputs: `".JPG"` resolves to `"Images"`
(case-insensitive) and `".xyz"` falls back to `"Others"`. -/
theorem get_category_resolves_witness :
    get_category ".JPG" = "Images" ∧ get_category ".xyz" = "Others" :=
  ⟨(get_category_resolves ".JPG").1 "Images"
      [".jpg", ".jpeg", ".png", ".gif", ".bmp", ".tiff", ".webp"]
      (by decide) (by decide) (by decide),
   (get_category_resolves ".xyz").2.1 (by decide)⟩

/-- C9: on any finite destination directory listing, the unbounded
collision loop terminates: there is a counter `k ≥ 1` whose candidate
`<stem>_<k><suffix>` is free, the search returns exactly the least such
`k`, and every smaller counter from 1 up is occupied. -/
theorem collision_loop_terminates (existing : List String) (stem suffix : String) :
    ∃ k, 1 ≤ k ∧ candidateName stem suffix k ∉ existing
      ∧ firstFreeSlot existing stem suffix = k
      ∧ ∀ j, 1 ≤ j → j < k → candidateName stem suffix j ∈ existing := by
  obtain ⟨h1, h2, h3⟩ := firstFreeSlot_spec existing stem suffix
  exact ⟨firstFreeSlot existing stem suffix, h1, h2, rfl, h3⟩

/-- C2: when the destination name is occupied, `move_file` renames to
`<stem>_<k><suffix>` where `k` is the first counter from 1 up whose
candidate does not exist (gaps are not reused: every smaller counter is
occupied).  The choice depends only on membership of the name in the
destination listing — there is no source-equals-destination check — so it
applies for any source location `srcDir`, including the source already
residing at `<dest_dir>/<src.name>` (last conjunct). -/
theorem move_file_collision_renames (fs : FS) (srcDir : Option String) (src destDir : String)
    (h : src ∈ fs.dirFiles destDir) :
    (move_file fs srcDir src destDir).2
        = candidateName (pyStem src) (pySuffix src)
            (firstFreeSlot (fs.dirFiles destDir) (pyStem src) (pySuffix src))
    ∧ 1 ≤ firstFreeSlot (fs.dirFiles destDir) (pyStem src) (pySuffix src)
    ∧ candidateName (pyStem src) (pySuffix src)
        (firstFreeSlot (fs.dirFiles destDir) (pyStem src) (pySuffix src)) ∉ fs.dirFiles destDir
    ∧ (∀ j, 1 ≤ j → j < firstFreeSlot (fs.dirFiles destDir) (pyStem src) (pySuffix src) →
        candidateName (pyStem src) (pySuffix src) j ∈ fs.dirFiles destDir)
    ∧ (move_file fs none src destDir).1.dirFiles destDir
        = (move_file fs none src destDir).2 :: fs.dirFiles destDir
    ∧ (move_file fs (some destDir) src destDir).1.dirFiles destDir
        = (move_file fs (some destDir) src destDir).2 :: (fs.dirFiles destDir).erase src := by
  obtain ⟨h1, h2, h3⟩ := firstFreeSlot_spec (fs.dirFiles destDir) (pyStem src) (pySuffix src)
  have hm : src ∈ (fs.mkdir destDir).dirFiles destDir := by rwa [FS.dirFiles_mkdir]
  refine ⟨move_file_final_of_mem fs srcDir src destDir h, h1, h2, h3,
    move_file_dirFiles_self_none fs src destDir, ?_⟩
  simp only [move_file]
  rw [if_pos hm, FS.dirFiles_addFileToDir_self, FS.removeFile_some_dirFiles,
    FS.dirFiles_mkdir]

/-- Witness for C2: with `x.txt` and `x_1.txt` both present in
`Documents`, moving a source named `x.txt` that already resides there goes
to `x_2.txt` — the gap-free first available integer, with no
same-path check. -/
theorem move_file_collision_renames_witness :
    ("x.txt" ∈ (FS.mk [("Documents", ["x.txt", "x_1.txt"])] []).dirFiles "Documents")
    ∧ (move_file (FS.mk [("Documents", ["x.txt", "x_1.txt"])] []) (some "Documents")
        "x.txt" "Documents").2 = "x_2.txt" := by
  refine ⟨by decide, ?_⟩
  have h := (move_file_collision_renames (FS.mk [("Documents", ["x.txt", "x_1.txt"])] [])
    (some "Documents") "x.txt" "Documents" (by decide)).1
  rw [h]
  decide

/-- C3: when no entry named `src` occupies the destination, `move_file`
places the file at `<dest_dir>/<src>` unrenamed, the destination directory
exists afterwards (`mkdir` having been idempotent if it already existed),
the returned final name is `src`, and the source file is gone from the top
level. -/
theorem move_file_no_collision (fs : FS) (src destDir : String)
    (h : src ∉ fs.dirFiles destDir) :
    (move_file fs none src destDir).2 = src
    ∧ (move_file fs none src destDir).1.dirFiles destDir = src :: fs.dirFiles destDir
    ∧ (move_file fs none src destDir).1.hasDir destDir = true
    ∧ (fs.hasDir destDir = true → fs.mkdir destDir = fs)
    ∧ (move_file fs none src destDir).1.files = fs.files.erase src
    ∧ (fs.files.Nodup → src ∉ (move_file fs none src destDir).1.files) := by
  have hfin := move_file_final_of_not_mem fs none src destDir h
  refine ⟨hfin, ?_, move_file_hasDir_self_none fs src destDir,
    FS.mkdir_of_hasDir fs destDir, move_file_files_none fs src destDir, ?_⟩
  · rw [move_file_dirFiles_self_none, hfin]
  · intro hnd hmem
    rw [move_file_files_none] at hmem
    exact ((hnd.mem_erase_iff.1 hmem).1) rfl

/-- Witness for C3: moving `a.jpg` into a not-yet-existing `Images`
places it there unrenamed and removes it from the top level. -/
theorem move_file_no_collision_witness :
    ("a.jpg" ∉ (FS.mk [] ["a.jpg", "b.txt"]).dirFiles "Images")
    ∧ (move_file (FS.mk [] ["a.jpg", "b.txt"]) none "a.jpg" "Images").2 = "a.jpg"
    ∧ (move_file (FS.mk [] ["a.jpg", "b.txt"]) none "a.jpg" "Images").1.dirFiles "Images"
        = ["a.jpg"]
    ∧ "a.jpg" ∉ (move_file (FS.mk [] ["a.jpg", "b.txt"]) none "a.jpg" "Images").1.files := by
  have h := move_file_no_collision (FS.mk [] ["a.jpg", "b.txt"]) "a.jpg" "Images" (by decide)
  exact ⟨by decide, h.1, by rw [h.2.1]; decide, h.2.2.2.2.2 (by decide)⟩

theorem setup_logging_hasDir_of (fs : FS) (ts y : String) (h : fs.hasDir y = true) :
    (setup_logging fs ts).hasDir y = true := by
  by_cases hy : y = "logs"
  · subst hy; exact setup_logging_hasDir_logs fs ts
  · rwa [setup_logging_hasDir_other fs ts y hy]

theorem setup_logging_mem_dirFiles (fs : FS) (ts d f : String) (h : f ∈ fs.dirFiles d) :
    f ∈ (setup_logging fs ts).dirFiles d := by
  by_cases hd : d = "logs"
  · subst hd; rw [setup_logging_dirFiles_logs]; exact List.mem_cons_of_mem _ h
  · rwa [setup_logging_dirFiles_other fs ts d hd]

/-- C4: a dry run performs no move: the resulting state is exactly the
state after `setup_logging`, the top-level files are unchanged, and every
directory other than `logs` (in particular every category folder) is
exactly as before — the only mutations are the `logs` folder and the log
file inside it. -/
theorem organize_dry_run_pure (fs : FS) (ts : String) :
    organizeRun fs ts true = setup_logging fs ts
    ∧ (organizeRun fs ts true).files = fs.files
    ∧ (∀ d, d ≠ "logs" →
        (organizeRun fs ts true).hasDir d = fs.hasDir d
        ∧ (organizeRun fs ts true).dirFiles d = fs.dirFiles d)
    ∧ (organizeRun fs ts true).hasDir "logs" = true
    ∧ (organizeRun fs ts true).dirFiles "logs" = logFileName ts :: fs.dirFiles "logs" := by
  rw [organizeRun_true]
  exact ⟨rfl, setup_logging_files fs ts,
    fun d hd => ⟨setup_logging_hasDir_other fs ts d hd, setup_logging_dirFiles_other fs ts d hd⟩,
    setup_logging_hasDir_logs fs ts, setup_logging_dirFiles_logs fs ts⟩

/-- Witness for C4: a dry run over a directory holding `a.jpg` leaves the
file at the top level and creates no `Images` folder. -/
theorem organize_dry_run_pure_witness :
    (organizeRun (FS.mk [] ["a.jpg"]) "T" true).files = ["a.jpg"]
    ∧ (organizeRun (FS.mk [] ["a.jpg"]) "T" true).hasDir "Images" = false := by
  have h := organize_dry_run_pure (FS.mk [] ["a.jpg"]) "T"
  refine ⟨h.2.1, ?_⟩
  rw [(h.2.2.1 "Images" (by decide)).1]
  decide

/-- C5: a top-level directory of the target is never entered, moved or
removed by a run: it still exists afterwards and every file that was
inside it is still inside it (the scan only processes top-level files
and skips directories by construction of `processList`). -/
theorem organize_preserves_subdirs (fs : FS) (ts : String) (dry : Bool) (d : String)
    (h : fs.hasDir d = true) :
    (organizeRun fs ts dry).hasDir d = true
    ∧ ∀ f, f ∈ fs.dirFiles d → f ∈ (organizeRun fs ts dry).dirFiles d := by
  refine ⟨?_, fun f hf => ?_⟩
  · simp only [organizeRun]
    exact processList_hasDir_of _ _ _ _ (setup_logging_hasDir_of fs ts d h)
  · simp only [organizeRun]
    exact processList_mem_dirFiles _ _ _ _ _ (setup_logging_mem_dirFiles fs ts d f hf)

/-- Witness for C5: a pre-existing `Images` folder keeps its file
`old.png` across a real (non-dry) run that moves `new.jpg` into it. -/
theorem organize_preserves_subdirs_witness :
    ((FS.mk [("Images", ["old.png"])] ["new.jpg"]).hasDir "Images" = true)
    ∧ "old.png" ∈
        (organizeRun (FS.mk [("Images", ["old.png"])] ["new.jpg"]) "T" false).dirFiles
          "Images" := by
  have h := organize_preserves_subdirs (FS.mk [("Images", ["old.png"])] ["new.jpg"])
    "T" false "Images" (by decide)
  exact ⟨by decide, h.2 "old.png" (by decide)⟩

/-- C6: on a target whose resolved path is not a directory,
`organize_directory` returns the distinguishable `NotADirectoryError`
message and produces no file-system state at all, while every valid
target produces an `ok` result — the error aborts before any side
effect. -/
theorem organize_invalid_target (p ts : String) (dry : Bool) :
    organize_directory p none ts dry = Except.error (p ++ " is not a valid directory")
    ∧ (∀ fs, organize_directory p (some fs) ts dry = Except.ok (organizeRun fs ts dry)) :=
  ⟨rfl, fun _ => rfl⟩

/-- C7: immediately re-running the organizer does nothing further: after a
completed (non-dry) run no top-level files remain, so the second run's
only effect is its own log file. -/
theorem organize_rerun_idempotent (fs : FS) (ts1 ts2 : String) :
    (organizeRun fs ts1 false).files = []
    ∧ organizeRun (organizeRun fs ts1 false) ts2 false
        = (organizeRun fs ts1 false).addFileToDir "logs" (logFileName ts2) := by
  refine ⟨organizeRun_files_false fs ts1, ?_⟩
  have h1 : (organizeRun fs ts1 false).files = [] := organizeRun_files_false fs ts1
  have h2 : (organizeRun fs ts1 false).hasDir "logs" = true :=
    organizeRun_hasDir_logs fs ts1 false
  have h3 : (setup_logging (organizeRun fs ts1 false) ts2).files = [] := by
    rw [setup_logging_files, h1]
  show processList false (setup_logging (organizeRun fs ts1 false) ts2).files
      (setup_logging (organizeRun fs ts1 false) ts2) = _
  rw [h3]
  show setup_logging (organizeRun fs ts1 false) ts2 = _
  rw [setup_logging, FS.mkdir_of_hasDir _ _ h2]

/-- C8: each invocation adds exactly one new file, named
`file_organizer_<timestamp>.log`, to the `logs` subdirectory of the
target (which exists afterwards), and each log event of the run is
formatted as `<asctime> - <LEVEL> - <message>`. -/
theorem organize_run_log (fs : FS) (ts : String) (dry : Bool) :
    (organizeRun fs ts dry).dirFiles "logs" = logFileName ts :: fs.dirFiles "logs"
    ∧ (organizeRun fs ts dry).hasDir "logs" = true
    ∧ (logFileName ts ∉ fs.dirFiles "logs" →
        ((organizeRun fs ts dry).dirFiles "logs").count (logFileName ts)
          = 1)
    ∧ logFileName ts = "file_organizer_" ++ ts ++ ".log"
    ∧ ∀ t lvl msg, formatLogLine t lvl msg = t ++ " - " ++ lvl ++ " - " ++ msg := by
  refine ⟨organizeRun_dirFiles_logs fs ts dry, organizeRun_hasDir_logs fs ts dry,
    fun h => ?_, rfl, fun _ _ _ => rfl⟩
  rw [organizeRun_dirFiles_logs, List.count_cons_self,
    List.count_eq_zero_of_not_mem h]

/-- Witness for C8: a run stamped `20250101_120000` over a fresh
directory leaves exactly `file_organizer_20250101_120000.log` in `logs`. -/
theorem organize_run_log_witness :
    (logFileName "20250101_120000" ∉ (FS.mk [] ["a.jpg"]).dirFiles "logs")
    ∧ (organizeRun (FS.mk [] ["a.jpg"]) "20250101_120000" false).dirFiles "logs"
        = ["file_organizer_20250101_120000.log"]
    ∧ ((organizeRun (FS.mk [] ["a.jpg"]) "20250101_120000" false).dirFiles "logs").count
        (logFileName "20250101_120000") = 1 := by
  have h := organize_run_log (FS.mk [] ["a.jpg"]) "20250101_120000" false
  refine ⟨by decide, ?_, h.2.2.1 (by decide)⟩
  rw [h.1]
  decide

/-- C10: classification uses only the final suffix of the name: a dotless
name, or a name that is a single leading dot like `.bashrc`, has empty
extension and goes to `Others`; a multi-suffix name like
`archive.tar.gz` is classified by `.gz` alone (here, to `Archives`); and
the organizer's per-file step uses exactly `get_category` of that
suffix as the destination. -/
theorem classification_by_last_suffix :
    (∀ name : String, '.' ∉ name.data →
      pySuffix name = "" ∧ get_category (pySuffix name) = "Others")
    ∧ (∀ cs : List Char, '.' ∉ cs → pySuffix (String.mk ('.' :: cs)) = "")
    ∧ pySuffix "archive.tar.gz" = ".gz"
    ∧ get_category (pySuffix "archive.tar.gz") = "Archives"
    ∧ ∀ fs name, processEntry fs name false
        = (move_file fs none name (get_category (pySuffix name))).1 := by
  refine ⟨?_, ?_, by decide, by decide, fun fs name => rfl⟩
  · intro name h
    have hn := rfindDot_eq_none name.data h
    constructor
    · simp only [pySuffix, hn]
    · simp only [pySuffix, hn]
      decide
  · intro cs h
    have hn := rfindDot_eq_none cs h
    simp [pySuffix, rfindDot, hn]

/-- Witness for C10: `noext` and `.bashrc` both have empty extension, and
`noext` is classified into `Others`. -/
theorem classification_by_last_suffix_witness :
    pySuffix "noext" = "" ∧ get_category (pySuffix "noext") = "Others"
    ∧ pySuffix (String.mk ('.' :: ['b', 'a', 's', 'h', 'r', 'c'])) = "" := by
  have h := classification_by_last_suffix
  obtain ⟨h1, h2⟩ := h.1 "noext" (by decide)
  exact ⟨h1, h2, h.2.1 ['b', 'a', 's', 'h', 'r', 'c'] (by decide)⟩

/-- Witness for C9: with `x.txt` and `x_1.txt` present, the loop stops at
counter 2, whose candidate `x_2.txt` is free. -/
theorem collision_loop_terminates_witness :
    firstFreeSlot ["x.txt", "x_1.txt"] "x" ".txt" = 2
    ∧ candidateName "x" ".txt" 2 ∉ ["x.txt", "x_1.txt"] := by
  obtain ⟨k, h1, h2, h3, h4⟩ := collision_loop_terminates ["x.txt", "x_1.txt"] "x" ".txt"
  have hk : k = 2 := by rw [← h3]; decide
  subst hk
  exact ⟨h3, h2⟩
